import Mathlib

/-!
A verification development for the skosprovider in-memory vocabulary
provider (skosprovider/providers.py).

The Python code is shallowly embedded as executable Lean definitions:

* Python objects used as entity identifiers are either ints or strings;
  comparisons in the code always go through Python str(), which we model
  with the PyId type and the pyStr function.
* Concept and Collection instances (from the skosprovider.skos module,
  whose file is not part of the sources; its attribute shapes are
  reconstructed from the spec) become one Entity structure tagged by
  SKType: the query engine only ever branches on isinstance of exactly
  these two classes.
* A method that can raise an exception returns an error value
  (Except.error or PyRes.error); a method that returns the Python
  literal False for a missing entity returns Option.none or
  PyRes.notFound.
* MemoryProvider.expand is naive recursion without a visited set, so it
  need not terminate; we embed it with an explicit fuel parameter where
  the Option.none result means "did not finish within the given
  recursion budget".  The recursion is structural in the fuel so that
  all definitions compute by kernel reduction.
-/

/-- A Python value used as an entity id: the data model allows both numeric
and string identifiers, and the provider compares them via str(). -/
inductive PyId where
  | int : Int → PyId
  | str : String → PyId
deriving DecidableEq

/-- Python str() on an identifier. -/
def pyStr : PyId → String
  | PyId.int n => toString n
  | PyId.str s => s

/-- The two entity variants the query engine branches on
(isinstance Concept / isinstance Collection). -/
inductive SKType where
  | concept
  | collection
deriving DecidableEq

/-- The string stored in the type attribute of an entity. -/
def typeStr : SKType → String
  | SKType.concept => "concept"
  | SKType.collection => "collection"

/-- A label attached to an entity: the text, the label type
(prefLabel, altLabel, sortLabel, hiddenLabel) and a language tag. -/
structure SKLabel where
  label : String
  ltype : String
  language : String
deriving DecidableEq

/-- A Concept or Collection instance.  The two Python classes are merged
into one structure tagged by etype; fields that only exist on one variant
(narrower, broader, related, subordinate_arrays for concepts; members,
superordinates for collections) are simply unused on the other. -/
structure Entity where
  id : PyId
  uri : String
  etype : SKType
  labels : List SKLabel
  narrower : List PyId
  broader : List PyId
  related : List PyId
  member_of : List PyId
  subordinate_arrays : List PyId
  members : List PyId
  superordinates : List PyId
deriving DecidableEq

/-- MemoryProvider.get_by_id: scan self.list for the first entity whose
str(id) equals str(of the argument); Python returns False when nothing
matches, modelled as Option.none. -/
def get_by_id (g : List Entity) (i : PyId) : Option Entity :=
  g.find? fun c => pyStr c.id == pyStr i

/-- MemoryProvider.get_by_uri: scan self.list for the first entity whose
str(uri) matches; uris are modelled as strings, so str() is the identity. -/
def get_by_uri (g : List Entity) (u : String) : Option Entity :=
  g.find? fun c => c.uri == u

/-- Python str.upper on the character list of a string, restricted to the
ASCII labels we model, where upper() maps each character through the
ASCII uppercase table. -/
def pyUpper (s : String) : List Char :=
  s.toList.map Char.toUpper

/-- Python hay.find(needle) >= 0 on character lists: the needle occurs as
a contiguous run of the haystack (an empty needle always occurs). -/
def pySubstr (hay needle : List Char) : Bool :=
  (List.range (hay.length + 1)).any fun i =>
    (hay.drop i).take needle.length == needle

/-- The finder helper inside MemoryProvider._include_in_find: match one
label text against the query string, case-sensitively when the provider is
configured with case_insensitive = False and via upper() otherwise. -/
def labelTextMatch (ci : Bool) (labelText q : String) : Bool :=
  if !ci then pySubstr labelText.toList q.toList
  else pySubstr (pyUpper labelText) (pyUpper q)

/-- The collection sub-dict of a find query: the id key and whether the
depth key is present and equal to the string all. -/
structure CollFilter where
  id : PyId
  depth_all : Bool
deriving DecidableEq

/-- A find query dict: each field is the value of the corresponding key,
Option.none meaning the key is absent. -/
structure Query where
  qtype : Option String
  label : Option String
  collection : Option CollFilter
deriving DecidableEq

/-- The in-memory provider: the entity list plus the case_insensitive
configuration flag (default True in the source). -/
structure MemoryProvider where
  list : List Entity
  case_insensitive : Bool
deriving DecidableEq

instance {ε α : Type} [DecidableEq ε] [DecidableEq α] : DecidableEq (Except ε α) := fun a b =>
  match a, b with
  | Except.error e, Except.error f =>
    if h : e = f then Decidable.isTrue (congrArg Except.error h)
    else Decidable.isFalse (fun hh => h (Except.error.inj hh))
  | Except.ok x, Except.ok y =>
    if h : x = y then Decidable.isTrue (congrArg Except.ok h)
    else Decidable.isFalse (fun hh => h (Except.ok.inj hh))
  | Except.error _, Except.ok _ => Decidable.isFalse (fun hh => Except.noConfusion hh)
  | Except.ok _, Except.error _ => Decidable.isFalse (fun hh => Except.noConfusion hh)

/-- The outcome of a Python call that can also return the literal False
or raise: ok a is a normal return, notFound is the False return and
error is a raised exception. -/
inductive PyRes (α : Type) where
  | ok : α → PyRes α
  | notFound : PyRes α
  | error : PyRes α
deriving DecidableEq

/-- The child-accumulation loop shared by both branches of
MemoryProvider.expand: ret |= set(self.expand(cid)) for each child id.
The callback f is the recursive expand at the remaining fuel.  A child
call that returns False feeds Python set(False), which raises TypeError,
modelled as PyRes.error; a raised child error propagates; a child that
does not finish within its budget makes the whole loop unfinished. -/
def expandList (f : PyId → Option (PyRes (Finset PyId))) :
    List PyId → Finset PyId → Option (PyRes (Finset PyId))
  | [], acc => Option.some (PyRes.ok acc)
  | cid :: rest, acc =>
    match f cid with
    | Option.none => Option.none
    | Option.some PyRes.notFound => Option.some PyRes.error
    | Option.some PyRes.error => Option.some PyRes.error
    | Option.some (PyRes.ok s) => expandList f rest (acc ∪ s)

/-- MemoryProvider.expand: resolve the id (first match on str equality,
exactly like get_by_id); for a Concept start from the set containing its
own raw id and union the recursive expansion of every narrower id; for a
Collection start from the empty set and union the recursive expansion of
every member; return False when the id resolves to nothing.  The source
recursion carries no visited set, so it is embedded with fuel:
Option.none means the recursion did not terminate within the budget. -/
def expand : Nat → List Entity → PyId → Option (PyRes (Finset PyId))
  | 0, _, _ => Option.none
  | fuel + 1, g, i =>
    match get_by_id g i with
    | Option.none => Option.some PyRes.notFound
    | Option.some c =>
      match c.etype with
      | SKType.concept => expandList (fun cid => expand fuel g cid) c.narrower {c.id}
      | SKType.collection => expandList (fun m => expand fuel g m) c.members ∅

/-- MemoryProvider._normalise_query: when the type key is present with a
value other than concept or collection, the key is deleted from the
query dict in place; the returned value is that same (possibly mutated)
dict. -/
def normalise_query (q : Query) : Query :=
  match q.qtype with
  | Option.some t =>
    if t = "concept" ∨ t = "collection" then q else { q with qtype := Option.none }
  | Option.none => q

/-- MemoryProvider._include_in_find for one entity: the type filter, then
the label filter (any label text matching), then the collection filter.
The collection check resolves the filter id with get_by_id and raises
ValueError (Except.error) when it yields nothing or a non-Collection;
with depth all it takes the member set from expand, where a raised or
looping expand propagates, otherwise it uses the direct members; the
entity is included when its str(id) occurs among the members. -/
def include_in_find (fuel : Nat) (p : MemoryProvider) (c : Entity) (q : Query) :
    Option (Except Unit Bool) :=
  let i1 : Bool :=
    match q.qtype with
    | Option.some t => t == typeStr c.etype
    | Option.none => true
  let i2 : Bool := i1 &&
    (match q.label with
     | Option.some lab => c.labels.any fun l => labelTextMatch p.case_insensitive l.label lab
     | Option.none => true)
  if i2 then
    match q.collection with
    | Option.none => Option.some (Except.ok true)
    | Option.some cf =>
      match get_by_id p.list cf.id with
      | Option.none => Option.some (Except.error ())
      | Option.some coll =>
        if coll.etype ≠ SKType.collection then Option.some (Except.error ())
        else if cf.depth_all then
          match expand fuel p.list coll.id with
          | Option.none => Option.none
          | Option.some (PyRes.ok s) =>
            Option.some (Except.ok (decide (∃ m ∈ s, pyStr m = pyStr c.id)))
          | Option.some PyRes.notFound => Option.some (Except.error ())
          | Option.some PyRes.error => Option.some (Except.error ())
        else Option.some (Except.ok (coll.members.any fun m => pyStr m == pyStr c.id))
  else Option.some (Except.ok false)

/-- The list comprehension in MemoryProvider.find: keep the entities for
which _include_in_find returns True, scanning the provider list in
order; a raised ValueError aborts the whole call and an expand that does
not finish makes the call unfinished. -/
def findFilter (fuel : Nat) (p : MemoryProvider) (q : Query) :
    List Entity → Option (Except Unit (List Entity))
  | [] => Option.some (Except.ok [])
  | c :: rest =>
    match include_in_find fuel p c q with
    | Option.none => Option.none
    | Option.some (Except.error ()) => Option.some (Except.error ())
    | Option.some (Except.ok b) =>
      match findFilter fuel p q rest with
      | Option.none => Option.none
      | Option.some (Except.error ()) => Option.some (Except.error ())
      | Option.some (Except.ok cs) =>
        Option.some (Except.ok (if b then c :: cs else cs))

/-- MemoryProvider.find at the default keyword arguments (sort is None, so
_sort returns the filtered list unchanged): normalise the query in place,
filter the provider list, and return the matching entities together with
the query dict as the caller observes it after the call (find hands its
argument to _normalise_query, which deletes the type key in place).  The
per-entity summary-dict projection of the result is omitted: it maps each
returned entity one-to-one. -/
def find (fuel : Nat) (p : MemoryProvider) (q : Query) :
    Option (Except Unit (List Entity)) × Query :=
  let q2 := normalise_query q
  (findFilter fuel p q2 p.list, q2)

/-- MemoryProvider.get_children_display at the default keyword arguments
(sort is None): resolve the id, returning False (notFound) when it is
unknown; a Concept displays its subordinate_arrays when that list is
non-empty and its narrower ids otherwise, a Collection always displays
its members; each child id is resolved with get_by_id and the resolved
entities are returned in order.  A child id that resolves to nothing
puts the literal False in the list and the summary-dict rendering then
dereferences False.id, raising AttributeError, modelled as error. -/
def get_children_display (g : List Entity) (i : PyId) : PyRes (List Entity) :=
  match get_by_id g i with
  | Option.none => PyRes.notFound
  | Option.some c =>
    let ids : List PyId :=
      match c.etype with
      | SKType.concept =>
        if c.subordinate_arrays = [] then c.narrower else c.subordinate_arrays
      | SKType.collection => c.members
    if ids.all fun d => (get_by_id g d).isSome then
      PyRes.ok (ids.filterMap (get_by_id g))
    else PyRes.error

/-- Python comparison on strings, i.e. strict lexicographic order on the
code points, written on the underlying character lists. -/
def pyStrLt : List Char → List Char → Bool
  | _, [] => false
  | [], _ :: _ => true
  | a :: as, b :: bs => if a = b then pyStrLt as bs else decide (a < b)

/-- Python a <= b on strings: not (b < a). -/
def pyLE (a b : String) : Bool :=
  ! pyStrLt b.toList a.toList

/-- Python list.sort(key=k, reverse=rev) as a pure function: a stable sort
of the list by the key.  With reverse=True Python still keeps elements
with equal keys in their original relative order, which is exactly a
stable sort under the flipped key comparison.  Stable sorts of a list
under a fixed total preorder all agree, so insertion sort stands in for
Timsort. -/
def pySort {α : Type} (key : α → String) (rev : Bool) (l : List α) : List α :=
  if rev then List.insertionSort (fun a b => pyLE (key b) (key a) = true) l
  else List.insertionSort (fun a b => pyLE (key a) (key b) = true) l

/-- Modelled from the spec: the label resolution chain of the skos module
(whose source file is absent), used by entity label() and by sort-key
extraction; scan the labels for the first prefLabel in the requested
language, else the first label of any type in that language, else the
first prefLabel in any language, else the first label of any type. -/
def resolveLabelFor (labels : List SKLabel) (language : String) : Option SKLabel :=
  (labels.find? fun l => l.ltype == "prefLabel" && l.language == language) <|>
  (labels.find? fun l => l.language == language) <|>
  (labels.find? fun l => l.ltype == "prefLabel") <|>
  labels.head?

/-- Modelled from the spec: the _sortkey method of skos-module entities
(source file absent).  Key id compares str(id); key sortlabel prefers a
sortLabel-typed label in the requested language before falling through
the ordinary label resolution chain; key label uses that chain directly;
an entity without any label contributes the empty string. -/
def sortkey (sort language : String) (e : Entity) : String :=
  if sort = "id" then pyStr e.id
  else if sort = "sortlabel" then
    match (e.labels.find? fun l => l.ltype == "sortLabel" && l.language == language) <|>
        resolveLabelFor e.labels language with
    | Option.some l => l.label
    | Option.none => ""
  else
    match resolveLabelFor e.labels language with
    | Option.some l => l.label
    | Option.none => ""

/-- VocabularyProvider._sort as a pure value: copy the list and, when the
sort argument is truthy (neither None nor the empty string), stably sort
the copy by the sort key, flipping the comparison for reverse. -/
def VocabularyProvider_sort (concepts : List Entity) (sort : Option String)
    (language : String) (rev : Bool) : List Entity :=
  match sort with
  | Option.none => concepts
  | Option.some s => if s = "" then concepts else pySort (sortkey s language) rev concepts

/-- VocabularyProvider._sort with the object store made explicit, to state
what the method mutates: the store maps addresses to list objects, the
argument list lives at address concepts, and copy.copy allocates the copy
at the fresh address; sorted.sort(...) then updates only that fresh
address.  The method returns the new store and the address of the copy. -/
def sortMethod (store : Nat → List Entity) (concepts fresh : Nat)
    (sort : Option String) (language : String) (rev : Bool) :
    (Nat → List Entity) × Nat :=
  let store1 := Function.update store fresh (store concepts)
  let store2 :=
    match sort with
    | Option.none => store1
    | Option.some s =>
      if s = "" then store1
      else Function.update store1 fresh (pySort (sortkey s language) rev (store1 fresh))
  (store2, fresh)

/-! Concrete fixture graphs used by witnesses and counterexamples. -/

/-- A concept entity with the given string id and narrower ids. -/
def mkConcept (i : String) (nar : List String) : Entity :=
  { id := PyId.str i, uri := "urn:" ++ i, etype := SKType.concept,
    labels := [], narrower := nar.map PyId.str, broader := [], related := [],
    member_of := [], subordinate_arrays := [], members := [], superordinates := [] }

/-- A collection entity with the given string id and member ids. -/
def mkCollection (i : String) (mem : List String) : Entity :=
  { id := PyId.str i, uri := "urn:" ++ i, etype := SKType.collection,
    labels := [], narrower := [], broader := [], related := [],
    member_of := [], subordinate_arrays := [], members := mem.map PyId.str, superordinates := [] }

/-- A small well-founded graph: concept a narrows to b, collection k holds a. -/
def demoGraph : List Entity := [mkConcept "a" ["b"], mkConcept "b" [], mkCollection "k" ["a"]]

/-- The provider over demoGraph with the default configuration. -/
def demoProvider : MemoryProvider := { list := demoGraph, case_insensitive := true }

/-- The provider holding no entities at all. -/
def emptyProvider : MemoryProvider := { list := [], case_insensitive := true }

/-- A two-cycle in the narrower relation: a narrows to b and b narrows to a. -/
def cycleGraph : List Entity := [mkConcept "a" ["b"], mkConcept "b" ["a"]]

/-- A graph whose single concept lists a narrower id that resolves to nothing. -/
def danglingGraph : List Entity := [mkConcept "a" ["ghost"]]

/-- An entity that carries no labels at all. -/
def unlabeledEntity : Entity := mkConcept "x" []

/-- The provider holding only the unlabeled entity. -/
def unlabeledProvider : MemoryProvider := { list := [unlabeledEntity], case_insensitive := true }

/-- An English prefLabel with the given text. -/
def prefLab (t : String) : SKLabel := { label := t, ltype := "prefLabel", language := "en" }

/-- A leaf concept with one English prefLabel. -/
def labeledConcept (i t : String) : Entity := { mkConcept i [] with labels := [prefLab t] }

/-- Three entities labeled b, a, c in that list order. -/
def abcList : List Entity := [labeledConcept "1" "b", labeledConcept "2" "a", labeledConcept "3" "c"]

/-- Two distinct entities carrying the same label text. -/
def tieList : List Entity := [labeledConcept "1" "x", labeledConcept "2" "x"]

/-- A display graph: concept a has a subordinate array pointing at k. -/
def displayGraph : List Entity :=
  [{ mkConcept "a" ["b"] with subordinate_arrays := [PyId.str "k"] },
   mkConcept "b" [], mkCollection "k" ["b"]]

/-! Helper lemmas about the embedded operations. -/

/-- One unfolding step of expand at positive fuel. -/
theorem expand_succ (fuel : Nat) (g : List Entity) (i : PyId) :
    expand (fuel + 1) g i =
      match get_by_id g i with
      | Option.none => Option.some PyRes.notFound
      | Option.some c =>
        match c.etype with
        | SKType.concept => expandList (fun cid => expand fuel g cid) c.narrower {c.id}
        | SKType.collection => expandList (fun m => expand fuel g m) c.members ∅ := rfl

/-- When an id resolves, the own id of the resolved entity resolves to the same
entity: the two get_by_id scans test the same string. -/
theorem get_by_id_of_found {g : List Entity} {i : PyId} {c : Entity}
    (h : get_by_id g i = Option.some c) : get_by_id g c.id = Option.some c := by
  have h2 : List.find? (fun e => pyStr e.id == pyStr i) g = Option.some c := h
  have hmatch := List.find?_some h2
  have hps : pyStr c.id = pyStr i := by simpa using hmatch
  unfold get_by_id at h ⊢
  rw [hps]
  exact h

/-- Both halves of the two-cycle make expand run out of any fuel: the
naive recursion revisits the partner id forever. -/
theorem cycle_expand_none : ∀ fuel : Nat,
    expand fuel cycleGraph (PyId.str "a") = Option.none ∧
    expand fuel cycleGraph (PyId.str "b") = Option.none := by
  intro fuel
  induction fuel with
  | zero => exact ⟨rfl, rfl⟩
  | succ n ih =>
    constructor
    · have hstep : expand (n + 1) cycleGraph (PyId.str "a") =
          expandList (fun cid => expand n cycleGraph cid) [PyId.str "b"] {PyId.str "a"} := rfl
      rw [hstep]
      simp only [expandList]
      rw [ih.2]
    · have hstep : expand (n + 1) cycleGraph (PyId.str "b") =
          expandList (fun cid => expand n cycleGraph cid) [PyId.str "a"] {PyId.str "b"} := rfl
      rw [hstep]
      simp only [expandList]
      rw [ih.1]

/-- C1: the claim says MemoryProvider.expand terminates on every graph,
cyclic ones included, by accumulating a visited set.  The source carries
no visited set: on the two-cycle graph the recursion between the two
concepts never returns, whatever recursion budget it is given, so on
CPython the call dies with RecursionError instead of terminating. -/
theorem expand_cycle_never_terminates :
    ∀ fuel : Nat, expand fuel cycleGraph (PyId.str "a") = Option.none :=
  fun fuel => (cycle_expand_none fuel).1

/-- A get_by_id scan finds each entity by its own id when the stringified
ids are pairwise distinct. -/
theorem get_by_id_mem : ∀ (g : List Entity),
    g.Pairwise (fun x y => pyStr x.id ≠ pyStr y.id) →
    ∀ e ∈ g, get_by_id g e.id = Option.some e := by
  intro g
  induction g with
  | nil => intro _ e he; cases he
  | cons c rest ih =>
    intro hp e he
    rcases List.pairwise_cons.mp hp with ⟨h1, h2⟩
    rcases List.mem_cons.mp he with rfl | hmem
    · unfold get_by_id
      simp [List.find?_cons]
    · unfold get_by_id
      rw [List.find?_cons_of_neg]
      · exact ih h2 e hmem
      · simp [h1 e hmem]

/-- A get_by_uri scan finds each entity by its own uri when the uris are
pairwise distinct. -/
theorem get_by_uri_mem : ∀ (g : List Entity),
    g.Pairwise (fun x y => x.uri ≠ y.uri) →
    ∀ e ∈ g, get_by_uri g e.uri = Option.some e := by
  intro g
  induction g with
  | nil => intro _ e he; cases he
  | cons c rest ih =>
    intro hp e he
    rcases List.pairwise_cons.mp hp with ⟨h1, h2⟩
    rcases List.mem_cons.mp he with rfl | hmem
    · unfold get_by_uri
      simp [List.find?_cons]
    · unfold get_by_uri
      rw [List.find?_cons_of_neg]
      · exact ih h2 e hmem
      · simp [h1 e hmem]

/-- C8: with pairwise distinct stringified ids and pairwise distinct uris,
get_by_id and get_by_uri return exactly the entity they were given the
id or uri of; id comparison goes through str(), so the int 5 and the
string 5 resolve alike; an unknown id or uri gives the not-found outcome
(the Python literal False), not an error. -/
theorem get_by_id_get_by_uri_round_trip (g : List Entity)
    (hids : g.Pairwise (fun x y => pyStr x.id ≠ pyStr y.id))
    (huris : g.Pairwise (fun x y => x.uri ≠ y.uri)) :
    (∀ e ∈ g, get_by_id g e.id = Option.some e) ∧
    (∀ e ∈ g, get_by_uri g e.uri = Option.some e) ∧
    (∀ n : Int, get_by_id g (PyId.int n) = get_by_id g (PyId.str (toString n))) ∧
    (∀ i, (∀ e ∈ g, pyStr e.id ≠ pyStr i) → get_by_id g i = Option.none) ∧
    (∀ u, (∀ e ∈ g, e.uri ≠ u) → get_by_uri g u = Option.none) := by
  refine ⟨get_by_id_mem g hids, get_by_uri_mem g huris, fun n => rfl, ?_, ?_⟩
  · intro i h
    unfold get_by_id
    rw [List.find?_eq_none]
    intro x hx
    simp [h x hx]
  · intro u h
    unfold get_by_uri
    rw [List.find?_eq_none]
    intro x hx
    simp [h x hx]

/-- An entity whose id is the Python int 5. -/
def intIdEntity : Entity := { mkConcept "u" [] with id := PyId.int 5 }

/-- A two-entity graph with an int-id entity and a string-id entity. -/
def intIdGraph : List Entity := [intIdEntity, mkConcept "b" []]

/-- Witness for C8 on the concrete two-entity graph. -/
theorem get_by_id_get_by_uri_round_trip_witness :
    get_by_id intIdGraph intIdEntity.id = Option.some intIdEntity ∧
    get_by_uri intIdGraph intIdEntity.uri = Option.some intIdEntity ∧
    get_by_id intIdGraph (PyId.int 5) = get_by_id intIdGraph (PyId.str "5") ∧
    get_by_id intIdGraph (PyId.str "zz") = Option.none := by
  have h := get_by_id_get_by_uri_round_trip intIdGraph (by decide) (by decide)
  exact ⟨h.1 intIdEntity (by decide), h.2.1 intIdEntity (by decide),
    h.2.2.1 5, h.2.2.2.1 (PyId.str "zz") (by decide)⟩

/-- C10: when the query dict carries a type key whose value is neither
concept nor collection, find deletes that key from the dict of the caller in
place before filtering, so after the call the caller observes a dict
that differs from the one passed in. -/
theorem find_normalises_query_in_place (fuel : Nat) (p : MemoryProvider) (q : Query)
    (t : String) (h1 : q.qtype = Option.some t)
    (h2 : t ≠ "concept") (h3 : t ≠ "collection") :
    (find fuel p q).2 = { q with qtype := Option.none } ∧ (find fuel p q).2 ≠ q := by
  have hn : normalise_query q = { q with qtype := Option.none } := by
    unfold normalise_query
    rw [h1]
    simp [h2, h3]
  have hsnd : (find fuel p q).2 = normalise_query q := rfl
  refine ⟨hsnd.trans hn, ?_⟩
  rw [hsnd, hn]
  intro heq
  have hq := congrArg Query.qtype heq
  rw [h1] at hq
  simp at hq

/-- Witness for C10 on a concrete query with a junk type value. -/
theorem find_normalises_query_in_place_witness :
    (find 1 emptyProvider
        { qtype := Option.some "junk", label := Option.none, collection := Option.none }).2
      = { qtype := Option.none, label := Option.none, collection := Option.none } ∧
    (find 1 emptyProvider
        { qtype := Option.some "junk", label := Option.none, collection := Option.none }).2
      ≠ { qtype := Option.some "junk", label := Option.none, collection := Option.none } := by
  have h := find_normalises_query_in_place 1 emptyProvider
    { qtype := Option.some "junk", label := Option.none, collection := Option.none }
    "junk" rfl (by decide) (by decide)
  exact ⟨h.1, h.2⟩

/-- C7: the contract of find says an empty label is equal to searching for
all concepts, and the claim says an absent or empty label filter keeps
every entity.  On an entity without any labels the code computes
any over an empty list, which is False, so the empty-string label filter
excludes it while the absent filter keeps it. -/
theorem find_empty_label_filter_excludes_unlabeled :
    (find 1 unlabeledProvider
        { qtype := Option.none, label := Option.some "", collection := Option.none }).1
      = Option.some (Except.ok []) ∧
    (find 1 unlabeledProvider
        { qtype := Option.none, label := Option.none, collection := Option.none }).1
      = Option.some (Except.ok [unlabeledEntity]) := by
  exact ⟨by decide, by decide⟩

/-- The strict code-point order is irreflexive. -/
theorem pyStrLt_irrefl : ∀ l : List Char, pyStrLt l l = false := by
  intro l
  induction l with
  | nil => rfl
  | cons a as ih => simp [pyStrLt, ih]

/-- The strict code-point order is transitive. -/
theorem pyStrLt_trans : ∀ (a b c : List Char),
    pyStrLt a b = true → pyStrLt b c = true → pyStrLt a c = true := by
  intro a
  induction a with
  | nil =>
    intro b c hab hbc
    cases b with
    | nil => simp [pyStrLt] at hab
    | cons y bs =>
      cases c with
      | nil => simp [pyStrLt] at hbc
      | cons z cs => simp [pyStrLt]
  | cons x as ih =>
    intro b c hab hbc
    cases b with
    | nil => simp [pyStrLt] at hab
    | cons y bs =>
      cases c with
      | nil => simp [pyStrLt] at hbc
      | cons z cs =>
        simp only [pyStrLt] at hab hbc ⊢
        by_cases hxy : x = y
        · subst hxy
          simp only [if_pos rfl] at hab
          by_cases hyz : x = z
          · subst hyz
            simp only [if_pos rfl] at hbc ⊢
            exact ih bs cs hab hbc
          · simp only [if_neg hyz] at hbc ⊢
            exact hbc
        · simp only [if_neg hxy] at hab
          by_cases hyz : y = z
          · subst hyz
            simp only [if_neg hxy]
            exact hab
          · simp only [if_neg hyz] at hbc
            have h1 : x < y := of_decide_eq_true hab
            have h2 : y < z := of_decide_eq_true hbc
            by_cases hxz : x = z
            · subst hxz
              exact absurd (Char.lt_trans h1 h2) (Char.lt_irrefl x)
            · simp only [if_neg hxz]
              exact decide_eq_true (Char.lt_trans h1 h2)

/-- Two lists that are not strictly ordered either way are equal. -/
theorem pyStrLt_connex : ∀ (a b : List Char),
    pyStrLt a b = false → pyStrLt b a = false → a = b := by
  intro a
  induction a with
  | nil =>
    intro b h1 _
    cases b with
    | nil => rfl
    | cons y bs => simp [pyStrLt] at h1
  | cons x as ih =>
    intro b h1 h2
    cases b with
    | nil => simp [pyStrLt] at h2
    | cons y bs =>
      simp only [pyStrLt] at h1 h2
      by_cases hxy : x = y
      · subst hxy
        simp only [if_pos rfl] at h1 h2
        rw [ih bs h1 h2]
      · simp only [if_neg hxy] at h1
        have hyx : ¬ y = x := fun hh => hxy hh.symm
        simp only [if_neg hyx] at h2
        have n1 : ¬ x < y := of_decide_eq_false h1
        have n2 : ¬ y < x := of_decide_eq_false h2
        exact absurd (Char.le_antisymm (Char.not_lt.mp n2) (Char.not_lt.mp n1)) hxy

/-- pyLE holds exactly when the reverse strict comparison fails. -/
theorem pyLE_eq_true_iff {s t : String} :
    pyLE s t = true ↔ pyStrLt t.toList s.toList = false := by
  unfold pyLE
  cases hv : pyStrLt t.toList s.toList <;> simp

/-- Python string comparison is total. -/
theorem pyLE_total (s t : String) : pyLE s t = true ∨ pyLE t s = true := by
  cases hv : pyStrLt t.toList s.toList with
  | false => exact Or.inl (pyLE_eq_true_iff.mpr hv)
  | true =>
    right
    rw [pyLE_eq_true_iff]
    cases hw : pyStrLt s.toList t.toList with
    | false => rfl
    | true =>
      have := pyStrLt_trans _ _ _ hv hw
      rw [pyStrLt_irrefl] at this
      exact Bool.noConfusion this

/-- Python string comparison is transitive. -/
theorem pyLE_trans {s t u : String} (h1 : pyLE s t = true) (h2 : pyLE t u = true) :
    pyLE s u = true := by
  rw [pyLE_eq_true_iff] at h1 h2 ⊢
  cases hv : pyStrLt u.toList s.toList with
  | false => rfl
  | true =>
    exfalso
    cases hw : pyStrLt s.toList t.toList with
    | true =>
      have := pyStrLt_trans _ _ _ hv hw
      rw [h2] at this
      exact Bool.noConfusion this
    | false =>
      have heq : s.toList = t.toList := pyStrLt_connex _ _ hw h1
      rw [heq] at hv
      rw [h2] at hv
      exact Bool.noConfusion hv

/-- A weak comparison between distinct strings is strict. -/
theorem pyLE_strict {s t : String} (hle : pyLE s t = true) (hne : s ≠ t) :
    pyStrLt s.toList t.toList = true := by
  rw [pyLE_eq_true_iff] at hle
  cases hv : pyStrLt s.toList t.toList with
  | true => rfl
  | false => exact absurd (String.toList_inj.mp (pyStrLt_connex _ _ hv hle)) hne

/-- Two pointwise pairwise facts combine into a conjunction. -/
theorem listPairwiseAnd {α : Type} {p q : α → α → Prop} :
    ∀ {l : List α}, l.Pairwise p → l.Pairwise q → l.Pairwise (fun a b => p a b ∧ q a b) := by
  intro l hp hq
  induction l with
  | nil => exact List.Pairwise.nil
  | cons a t ih =>
    rcases List.pairwise_cons.mp hp with ⟨hp1, hp2⟩
    rcases List.pairwise_cons.mp hq with ⟨hq1, hq2⟩
    exact List.pairwise_cons.mpr ⟨fun b hb => ⟨hp1 b hb, hq1 b hb⟩, ih hp2 hq2⟩

/-- A stable sort by a key reversed equals the stable sort under the
flipped comparison, provided the keys are pairwise distinct. -/
theorem pySort_desc_eq_reverse {α : Type} (key : α → String) (l : List α)
    (h : (l.map key).Nodup) :
    pySort key true l = (pySort key false l).reverse := by
  have hA : pySort key false l
      = List.insertionSort (fun a b => pyLE (key a) (key b) = true) l := by
    simp [pySort]
  have hD : pySort key true l
      = List.insertionSort (fun a b => pyLE (key b) (key a) = true) l := by
    simp [pySort]
  rw [hA, hD]
  haveI : IsTotal α (fun a b => pyLE (key a) (key b) = true) :=
    ⟨fun a b => pyLE_total _ _⟩
  haveI : IsTrans α (fun a b => pyLE (key a) (key b) = true) :=
    ⟨fun a b c h1 h2 => pyLE_trans h1 h2⟩
  haveI : IsTotal α (fun a b => pyLE (key b) (key a) = true) :=
    ⟨fun a b => (pyLE_total _ _).symm⟩
  haveI : IsTrans α (fun a b => pyLE (key b) (key a) = true) :=
    ⟨fun a b c h1 h2 => pyLE_trans h2 h1⟩
  have sA := List.sorted_insertionSort (fun a b => pyLE (key a) (key b) = true) l
  have sD := List.sorted_insertionSort (fun a b => pyLE (key b) (key a) = true) l
  have pA := List.perm_insertionSort (fun a b => pyLE (key a) (key b) = true) l
  have pD := List.perm_insertionSort (fun a b => pyLE (key b) (key a) = true) l
  have hnA : ((List.insertionSort (fun a b => pyLE (key a) (key b) = true) l).map key).Nodup :=
    ((pA.map key).symm).nodup h
  have hnD : ((List.insertionSort (fun a b => pyLE (key b) (key a) = true) l).map key).Nodup :=
    ((pD.map key).symm).nodup h
  have neA : (List.insertionSort (fun a b => pyLE (key a) (key b) = true) l).Pairwise
      (fun a b => key a ≠ key b) := List.pairwise_map.mp hnA
  have neD : (List.insertionSort (fun a b => pyLE (key b) (key a) = true) l).Pairwise
      (fun a b => key a ≠ key b) := List.pairwise_map.mp hnD
  have ssA : (List.insertionSort (fun a b => pyLE (key a) (key b) = true) l).Pairwise
      (fun a b => pyStrLt (key a).toList (key b).toList = true) :=
    (listPairwiseAnd sA neA).imp (fun hab => pyLE_strict hab.1 hab.2)
  have ssD : (List.insertionSort (fun a b => pyLE (key b) (key a) = true) l).Pairwise
      (fun a b => pyStrLt (key b).toList (key a).toList = true) :=
    (listPairwiseAnd sD neD).imp (fun hab => pyLE_strict hab.1 (Ne.symm hab.2))
  have ssRevA : ((List.insertionSort (fun a b => pyLE (key a) (key b) = true) l).reverse).Pairwise
      (fun a b => pyStrLt (key b).toList (key a).toList = true) :=
    List.pairwise_reverse.mpr ssA
  haveI : IsAntisymm α (fun a b => pyStrLt (key b).toList (key a).toList = true) := by
    refine ⟨fun a b h1 h2 => ?_⟩
    have := pyStrLt_trans _ _ _ h1 h2
    rw [pyStrLt_irrefl] at this
    exact Bool.noConfusion this
  have hperm : List.Perm (List.insertionSort (fun a b => pyLE (key b) (key a) = true) l)
      ((List.insertionSort (fun a b => pyLE (key a) (key b) = true) l).reverse) :=
    pD.trans (pA.symm.trans (List.reverse_perm _).symm)
  exact List.eq_of_perm_of_sorted hperm ssD ssRevA

/-- C5 counterexample: two entities share the label text x; the Python
reverse sort keeps them in original order, while reversing the ascending
stable sort would swap them, so the descending result is not the reversal
of the ascending result. -/
theorem sort_desc_tie_not_reversed :
    VocabularyProvider_sort tieList (Option.some "label") "en" true
      ≠ (VocabularyProvider_sort tieList (Option.some "label") "en" false).reverse := by
  decide

/-- C5, amended: list.sort(reverse=True) flips the comparator while
keeping equal-key entities in their original order, so the descending
result equals the reversal of the ascending result exactly when the sort
keys are pairwise distinct. -/
theorem sort_desc_eq_reverse_of_distinct_keys (l : List Entity) (s language : String)
    (hs : s ≠ "") (h : (l.map (sortkey s language)).Nodup) :
    VocabularyProvider_sort l (Option.some s) language true
      = (VocabularyProvider_sort l (Option.some s) language false).reverse := by
  simp only [VocabularyProvider_sort, if_neg hs]
  exact pySort_desc_eq_reverse _ l h

/-- Witness for C5 on the b, a, c labeled entities. -/
theorem sort_desc_eq_reverse_witness :
    VocabularyProvider_sort abcList (Option.some "label") "en" true
      = (VocabularyProvider_sort abcList (Option.some "label") "en" false).reverse :=
  sort_desc_eq_reverse_of_distinct_keys abcList "label" "en" (by decide) (by decide)

/-- The pure sort returns a permutation of its input. -/
theorem pySort_perm {α : Type} (key : α → String) (rev : Bool) (l : List α) :
    List.Perm (pySort key rev l) l := by
  cases rev with
  | false =>
    simp only [pySort, Bool.false_eq_true, if_false]
    exact List.perm_insertionSort _ l
  | true =>
    simp only [pySort, if_true]
    exact List.perm_insertionSort _ l

/-- The _sort result holds the same entities as its argument. -/
theorem VocabularyProvider_sort_perm (l : List Entity) (sort : Option String)
    (language : String) (rev : Bool) :
    List.Perm (VocabularyProvider_sort l sort language rev) l := by
  cases sort with
  | none => exact List.Perm.refl l
  | some s =>
    by_cases hs : s = ""
    · simp only [VocabularyProvider_sort, if_pos hs]
      exact List.Perm.refl l
    · simp only [VocabularyProvider_sort, if_neg hs]
      exact pySort_perm _ _ _

/-- C6: VocabularyProvider._sort only ever mutates the fresh copy object
allocated by copy.copy: the list object of the caller is untouched by the
call, the returned object holds the sorted copy, and that copy is a
permutation of the original elements. -/
theorem sort_leaves_source_list_unchanged (store : Nat → List Entity)
    (concepts fresh : Nat) (sort : Option String) (language : String) (rev : Bool)
    (h : fresh ≠ concepts) :
    (sortMethod store concepts fresh sort language rev).1 concepts = store concepts ∧
    (sortMethod store concepts fresh sort language rev).1
        (sortMethod store concepts fresh sort language rev).2
      = VocabularyProvider_sort (store concepts) sort language rev ∧
    List.Perm (VocabularyProvider_sort (store concepts) sort language rev)
      (store concepts) := by
  refine ⟨?_, ?_, VocabularyProvider_sort_perm _ _ _ _⟩
  · cases sort with
    | none =>
      simp only [sortMethod]
      exact Function.update_noteq (Ne.symm h) _ _
    | some s =>
      by_cases hs : s = ""
      · simp only [sortMethod, if_pos hs]
        exact Function.update_noteq (Ne.symm h) _ _
      · simp only [sortMethod, if_neg hs]
        rw [Function.update_noteq (Ne.symm h), Function.update_noteq (Ne.symm h)]
  · cases sort with
    | none =>
      simp only [sortMethod, VocabularyProvider_sort]
      exact Function.update_same _ _ _
    | some s =>
      by_cases hs : s = ""
      · simp only [sortMethod, VocabularyProvider_sort, if_pos hs]
        exact Function.update_same _ _ _
      · simp only [sortMethod, VocabularyProvider_sort, if_neg hs]
        rw [Function.update_same, Function.update_same]

/-- Witness for C6 on a concrete store holding the b, a, c entities. -/
theorem sort_leaves_source_list_unchanged_witness :
    (sortMethod (fun _ => abcList) 0 1 (Option.some "label") "en" false).1 0 = abcList ∧
    (sortMethod (fun _ => abcList) 0 1 (Option.some "label") "en" false).1
        (sortMethod (fun _ => abcList) 0 1 (Option.some "label") "en" false).2
      = VocabularyProvider_sort abcList (Option.some "label") "en" false ∧
    List.Perm (VocabularyProvider_sort abcList (Option.some "label") "en" false) abcList := by
  have h := sort_leaves_source_list_unchanged (fun _ => abcList) 0 1
    (Option.some "label") "en" false (by decide)
  exact ⟨h.1, h.2.1, h.2.2⟩

/-- The set a child call contributed: its result set when it returned one
and the empty set otherwise. -/
def valOf : Option (PyRes (Finset PyId)) → Finset PyId
  | Option.some (PyRes.ok t) => t
  | _ => ∅

/-- Accumulating unions may start from the empty set and add the
accumulator afterwards. -/
theorem foldl_union_start (F : PyId → Finset PyId) : ∀ (l : List PyId) (acc : Finset PyId),
    l.foldl (fun a n => a ∪ F n) acc = acc ∪ l.foldl (fun a n => a ∪ F n) ∅ := by
  intro l
  induction l with
  | nil => intro acc; simp
  | cons n rest ih =>
    intro acc
    simp only [List.foldl_cons]
    rw [ih (acc ∪ F n), ih (∅ ∪ F n)]
    rw [Finset.empty_union, Finset.union_assoc]

/-- When the child loop returns a set, every child call returned a set and
the result is the accumulated union of their contributions. -/
theorem expandList_ok (f : PyId → Option (PyRes (Finset PyId))) :
    ∀ (l : List PyId) (acc s : Finset PyId),
      expandList f l acc = Option.some (PyRes.ok s) →
      (∀ n ∈ l, ∃ t, f n = Option.some (PyRes.ok t)) ∧
      s = l.foldl (fun a n => a ∪ valOf (f n)) acc := by
  intro l
  induction l with
  | nil =>
    intro acc s h
    simp only [expandList, Option.some.injEq, PyRes.ok.injEq] at h
    subst h
    exact ⟨fun n hn => absurd hn (List.not_mem_nil n), rfl⟩
  | cons cid rest ih =>
    intro acc s h
    simp only [expandList] at h
    cases hc : f cid with
    | none => rw [hc] at h; simp at h
    | some r =>
      cases r with
      | notFound => rw [hc] at h; simp at h
      | error => rw [hc] at h; simp at h
      | ok t =>
        rw [hc] at h
        dsimp only at h
        obtain ⟨hall, heq⟩ := ih (acc ∪ t) s h
        constructor
        · intro n hn
          rcases List.mem_cons.mp hn with rfl | hmem
          · exact ⟨t, hc⟩
          · exact hall n hmem
        · rw [heq]
          simp only [List.foldl_cons, hc, valOf]
  
/-- A narrower or member id that resolves to nothing can never let the
surrounding expand return a set: its own recursive call returns the
Python literal False at every budget. -/
theorem expand_dangling_ne_ok (f : Nat) (g : List Entity) (n : PyId) (t : Finset PyId)
    (h : get_by_id g n = Option.none) : expand f g n ≠ Option.some (PyRes.ok t) := by
  cases f with
  | zero => intro hh; simp [expand] at hh
  | succ m =>
    intro hh
    rw [expand_succ, h] at hh
    simp at hh

/-- Every id in a set returned by expand resolves, as a string, to a
Concept whose raw id is that very element: the sets only ever collect
the ids of concepts found by the get_by_id scan. -/
theorem mem_expand_is_concept :
    ∀ (fuel : Nat) (g : List Entity) (i : PyId) (s : Finset PyId),
      expand fuel g i = Option.some (PyRes.ok s) →
      ∀ x ∈ s, ∃ c, get_by_id g x = Option.some c ∧ c.etype = SKType.concept ∧ c.id = x := by
  intro fuel
  induction fuel with
  | zero =>
    intro g i s h
    simp [expand] at h
  | succ n ih =>
    have hch : ∀ (g : List Entity) (l : List PyId) (acc s : Finset PyId),
        expandList (fun cid => expand n g cid) l acc = Option.some (PyRes.ok s) →
        ∀ x ∈ s, x ∈ acc ∨
          ∃ c, get_by_id g x = Option.some c ∧ c.etype = SKType.concept ∧ c.id = x := by
      intro g l
      induction l with
      | nil =>
        intro acc s h x hx
        simp only [expandList, Option.some.injEq, PyRes.ok.injEq] at h
        subst h
        exact Or.inl hx
      | cons cid rest ihl =>
        intro acc s h x hx
        simp only [expandList] at h
        cases hc : expand n g cid with
        | none => rw [hc] at h; simp at h
        | some r =>
          cases r with
          | notFound => rw [hc] at h; simp at h
          | error => rw [hc] at h; simp at h
          | ok t =>
            rw [hc] at h
            dsimp only at h
            rcases ihl (acc ∪ t) s h x hx with hmem | hgoal
            · rcases Finset.mem_union.mp hmem with ha | ht
              · exact Or.inl ha
              · exact Or.inr (ih g cid t hc x ht)
            · exact Or.inr hgoal
    intro g i s h
    cases hg : get_by_id g i with
    | none =>
      rw [expand_succ, hg] at h
      simp at h
    | some c =>
      cases hety : c.etype with
      | concept =>
        rw [expand_succ, hg] at h
        dsimp only at h
        rw [hety] at h
        dsimp only at h
        intro x hx
        rcases hch g c.narrower {c.id} s h x hx with hmem | hgoal
        · have hx2 : x = c.id := Finset.mem_singleton.mp hmem
          subst hx2
          exact ⟨c, get_by_id_of_found hg, hety, rfl⟩
        · exact hgoal
      | collection =>
        rw [expand_succ, hg] at h
        dsimp only at h
        rw [hety] at h
        dsimp only at h
        intro x hx
        rcases hch g c.members ∅ s h x hx with hmem | hgoal
        · exact absurd hmem (Finset.not_mem_empty x)
        · exact hgoal

/-- C3: expand implements the recursive specification: an unresolvable id
returns the not-found outcome; a Concept expands to the set holding its
own id together with the expansion of every narrower id, so the result
never omits the concept and a leaf concept expands to exactly itself; a
Collection expands to the union of the expansions of its members, never
contains its own id, and an empty-member collection yields the empty
set.  The sub-expansions are those at the remaining recursion budget. -/
theorem expand_recursion_spec (g : List Entity) (i : PyId) (fuel : Nat) (s : Finset PyId) :
    (get_by_id g i = Option.none → expand (fuel + 1) g i = Option.some PyRes.notFound) ∧
    (∀ c, get_by_id g i = Option.some c →
      expand (fuel + 1) g i = Option.some (PyRes.ok s) →
      (c.etype = SKType.concept →
        c.id ∈ s ∧
        (∀ n ∈ c.narrower, ∃ t, expand fuel g n = Option.some (PyRes.ok t)) ∧
        s = {c.id} ∪ c.narrower.foldl (fun a n => a ∪ valOf (expand fuel g n)) ∅ ∧
        (c.narrower = [] → s = {c.id})) ∧
      (c.etype = SKType.collection →
        c.id ∉ s ∧
        (∀ m ∈ c.members, ∃ t, expand fuel g m = Option.some (PyRes.ok t)) ∧
        s = c.members.foldl (fun a m => a ∪ valOf (expand fuel g m)) ∅ ∧
        (c.members = [] → s = ∅))) := by
  constructor
  · intro hg
    rw [expand_succ, hg]
  · intro c hg h
    have horig := h
    constructor
    · intro hety
      rw [expand_succ, hg] at h
      dsimp only at h
      rw [hety] at h
      dsimp only at h
      obtain ⟨hall, heq⟩ := expandList_ok _ c.narrower {c.id} s h
      have heq2 : s = {c.id} ∪ c.narrower.foldl (fun a n => a ∪ valOf (expand fuel g n)) ∅ := by
        rw [heq, foldl_union_start]
      refine ⟨?_, hall, heq2, ?_⟩
      · rw [heq2]
        exact Finset.mem_union_left _ (Finset.mem_singleton_self c.id)
      · intro hnil
        rw [heq2, hnil]
        simp
    · intro hety
      rw [expand_succ, hg] at h
      dsimp only at h
      rw [hety] at h
      dsimp only at h
      obtain ⟨hall, heq⟩ := expandList_ok _ c.members ∅ s h
      have heq2 : s = c.members.foldl (fun a m => a ∪ valOf (expand fuel g m)) ∅ := heq
      refine ⟨?_, hall, heq2, ?_⟩
      · intro hmem
        obtain ⟨c2, hc2, hcon, _⟩ := mem_expand_is_concept (fuel + 1) g i s horig c.id hmem
        have hcc : get_by_id g c.id = Option.some c := get_by_id_of_found hg
        rw [hcc] at hc2
        have hce : c = c2 := Option.some.inj hc2
        rw [← hce, hety] at hcon
        exact SKType.noConfusion hcon
      · intro hnil
        rw [heq2, hnil]
        rfl

/-- Witness for C3: on the demo graph, the expansion of concept a contains
a itself, and the expansion of collection k omits k. -/
theorem expand_recursion_spec_witness :
    PyId.str "a" ∈ ({PyId.str "a", PyId.str "b"} : Finset PyId) ∧
    PyId.str "k" ∉ ({PyId.str "a", PyId.str "b"} : Finset PyId) := by
  constructor
  · have h := (expand_recursion_spec demoGraph (PyId.str "a") 2 {PyId.str "a", PyId.str "b"}).2
      (mkConcept "a" ["b"]) (by decide) (by decide)
    exact (h.1 (by decide)).1
  · have h := (expand_recursion_spec demoGraph (PyId.str "k") 2 {PyId.str "a", PyId.str "b"}).2
      (mkCollection "k" ["a"]) (by decide) (by decide)
    exact (h.2 (by decide)).1

/-- C4 counterexample: the single concept lists the unresolvable narrower
id ghost; expand feeds the False child result to set() and dies with
TypeError, and get_children_display dereferences False.id and dies with
AttributeError — neither lets the dangling child contribute nothing. -/
theorem dangling_child_crashes :
    expand 2 danglingGraph (PyId.str "a") = Option.some PyRes.error ∧
    get_children_display danglingGraph (PyId.str "a") = PyRes.error := by
  exact ⟨by decide, by decide⟩

/-- C4, amended: a narrower or member id that does not resolve makes
expand raise (it can never return a set, at any recursion budget), and a
display child id that does not resolve makes get_children_display raise;
the dangling child is not skipped. -/
theorem dangling_child_raises :
    (∀ (g : List Entity) (i : PyId) (c : Entity) (n : PyId) (fuel : Nat) (s : Finset PyId),
      get_by_id g i = Option.some c →
      ((c.etype = SKType.concept ∧ n ∈ c.narrower) ∨
       (c.etype = SKType.collection ∧ n ∈ c.members)) →
      get_by_id g n = Option.none →
      expand fuel g i ≠ Option.some (PyRes.ok s)) ∧
    (∀ (g : List Entity) (i : PyId) (c : Entity) (n : PyId),
      get_by_id g i = Option.some c →
      n ∈ (match c.etype with
           | SKType.concept =>
             if c.subordinate_arrays = [] then c.narrower else c.subordinate_arrays
           | SKType.collection => c.members) →
      get_by_id g n = Option.none →
      get_children_display g i = PyRes.error) := by
  constructor
  · intro g i c n fuel s hg hmem hn h
    cases fuel with
    | zero => simp [expand] at h
    | succ m =>
      rw [expand_succ, hg] at h
      dsimp only at h
      rcases hmem with ⟨hety, hmem⟩ | ⟨hety, hmem⟩
      · rw [hety] at h
        dsimp only at h
        obtain ⟨hall, _⟩ := expandList_ok _ c.narrower {c.id} s h
        obtain ⟨t, ht⟩ := hall n hmem
        exact expand_dangling_ne_ok m g n t hn ht
      · rw [hety] at h
        dsimp only at h
        obtain ⟨hall, _⟩ := expandList_ok _ c.members ∅ s h
        obtain ⟨t, ht⟩ := hall n hmem
        exact expand_dangling_ne_ok m g n t hn ht
  · intro g i c n hg hmem hn
    unfold get_children_display
    rw [hg]
    dsimp only
    have hfalse : ((match c.etype with
        | SKType.concept =>
          if c.subordinate_arrays = [] then c.narrower else c.subordinate_arrays
        | SKType.collection => c.members).all fun d => (get_by_id g d).isSome) = false := by
      cases hv : ((match c.etype with
          | SKType.concept =>
            if c.subordinate_arrays = [] then c.narrower else c.subordinate_arrays
          | SKType.collection => c.members).all fun d => (get_by_id g d).isSome) with
      | false => rfl
      | true =>
        have := List.all_eq_true.mp hv n hmem
        rw [hn] at this
        simp at this
    simp [hfalse]

/-- Witness for C4 on the dangling graph. -/
theorem dangling_child_raises_witness :
    expand 2 danglingGraph (PyId.str "a") ≠ Option.some (PyRes.ok ∅) ∧
    get_children_display danglingGraph (PyId.str "a") = PyRes.error := by
  constructor
  · exact dangling_child_raises.1 danglingGraph (PyId.str "a") (mkConcept "a" ["ghost"])
      (PyId.str "ghost") 2 ∅ (by decide) (Or.inl ⟨by decide, by decide⟩) (by decide)
  · exact dangling_child_raises.2 danglingGraph (PyId.str "a") (mkConcept "a" ["ghost"])
      (PyId.str "ghost") (by decide) (by decide) (by decide)

/-- With no type and no label key, _include_in_find goes straight to the
collection check. -/
theorem include_coll_only (fuel : Nat) (p : MemoryProvider) (c : Entity) (cf : CollFilter) :
    include_in_find fuel p c
        { qtype := Option.none, label := Option.none, collection := Option.some cf } =
      match get_by_id p.list cf.id with
      | Option.none => Option.some (Except.error ())
      | Option.some coll =>
        if coll.etype ≠ SKType.collection then Option.some (Except.error ())
        else if cf.depth_all then
          match expand fuel p.list coll.id with
          | Option.none => Option.none
          | Option.some (PyRes.ok s) =>
            Option.some (Except.ok (decide (∃ m ∈ s, pyStr m = pyStr c.id)))
          | Option.some PyRes.notFound => Option.some (Except.error ())
          | Option.some PyRes.error => Option.some (Except.error ())
        else Option.some (Except.ok (coll.members.any fun m => pyStr m == pyStr c.id)) := rfl

/-- A raised check on the head entity aborts the whole find scan. -/
theorem findFilter_error_head (fuel : Nat) (p : MemoryProvider) (q : Query)
    (c : Entity) (rest : List Entity)
    (hinc : include_in_find fuel p c q = Option.some (Except.error ())) :
    findFilter fuel p q (c :: rest) = Option.some (Except.error ()) := by
  simp only [findFilter, hinc]

/-- When the per-entity check is a pure boolean test, the find scan is the
filter by that test. -/
theorem findFilter_all_ok (fuel : Nat) (p : MemoryProvider) (q : Query) (b : Entity → Bool)
    (hinc : ∀ c, include_in_find fuel p c q = Option.some (Except.ok (b c))) :
    ∀ l, findFilter fuel p q l = Option.some (Except.ok (l.filter b)) := by
  intro l
  induction l with
  | nil => rfl
  | cons c rest ih =>
    simp only [findFilter, hinc c, ih]
    cases hb : b c with
    | false => simp [List.filter_cons, hb]
    | true => simp [List.filter_cons, hb]

/-- C2, amended: the collection filter is evaluated per candidate entity,
after the type and label filters.  With a query that carries only the
collection key, every entity of a non-empty provider reaches the check,
so an id that resolves to nothing or to a non-Collection raises the
usage error; when the id resolves to a Collection, an entity is kept iff
its str(id) occurs in expand(collection.id) when depth is all and in the
direct members of the collection otherwise.  (On an empty provider, or when
no candidate survives the earlier filters, the check never runs and no
error is raised.) -/
theorem find_collection_filter_per_candidate (fuel : Nat) (p : MemoryProvider)
    (cf : CollFilter) :
    (∀ c rest, p.list = c :: rest →
      (∀ coll, get_by_id p.list cf.id = Option.some coll → coll.etype ≠ SKType.collection) →
      (find fuel p
          { qtype := Option.none, label := Option.none, collection := Option.some cf }).1
        = Option.some (Except.error ())) ∧
    (∀ coll, get_by_id p.list cf.id = Option.some coll → coll.etype = SKType.collection →
      cf.depth_all = false →
      (find fuel p
          { qtype := Option.none, label := Option.none, collection := Option.some cf }).1
        = Option.some (Except.ok
            (p.list.filter fun c => coll.members.any fun m => pyStr m == pyStr c.id))) ∧
    (∀ coll s, get_by_id p.list cf.id = Option.some coll → coll.etype = SKType.collection →
      cf.depth_all = true → expand fuel p.list coll.id = Option.some (PyRes.ok s) →
      (find fuel p
          { qtype := Option.none, label := Option.none, collection := Option.some cf }).1
        = Option.some (Except.ok
            (p.list.filter fun c => decide (∃ m ∈ s, pyStr m = pyStr c.id)))) := by
  refine ⟨?_, ?_, ?_⟩
  · intro c rest hlist hbad
    have hinc : include_in_find fuel p c
        { qtype := Option.none, label := Option.none, collection := Option.some cf }
        = Option.some (Except.error ()) := by
      rw [include_coll_only]
      cases hcase : get_by_id p.list cf.id with
      | none => rfl
      | some coll =>
        dsimp only
        rw [if_pos (hbad coll hcase)]
    show findFilter fuel p _ p.list = _
    rw [hlist]
    exact findFilter_error_head fuel p _ c rest hinc
  · intro coll hcoll hety hdepth
    have hinc : ∀ c, include_in_find fuel p c
        { qtype := Option.none, label := Option.none, collection := Option.some cf }
        = Option.some (Except.ok (coll.members.any fun m => pyStr m == pyStr c.id)) := by
      intro c
      rw [include_coll_only, hcoll]
      dsimp only
      rw [if_neg (not_not_intro hety), hdepth]
      simp
    exact findFilter_all_ok fuel p _ _ hinc p.list
  · intro coll s hcoll hety hdepth hexp
    have hinc : ∀ c, include_in_find fuel p c
        { qtype := Option.none, label := Option.none, collection := Option.some cf }
        = Option.some (Except.ok (decide (∃ m ∈ s, pyStr m = pyStr c.id))) := by
      intro c
      rw [include_coll_only, hcoll]
      dsimp only
      rw [if_neg (not_not_intro hety), hdepth]
      simp only [if_true]
      rw [hexp]
    exact findFilter_all_ok fuel p _ _ hinc p.list

/-- C2 counterexample: on the empty provider the collection check never
runs, so a filter naming a collection that does not exist returns the
empty result list instead of raising the usage error. -/
theorem find_unknown_collection_empty_graph_returns_empty :
    (find 1 emptyProvider
        { qtype := Option.none, label := Option.none,
          collection := Option.some { id := PyId.str "does-not-exist", depth_all := false } }).1
      = Option.some (Except.ok []) ∧
    (find 1 emptyProvider
        { qtype := Option.none, label := Option.none,
          collection := Option.some { id := PyId.str "does-not-exist", depth_all := false } }).1
      ≠ Option.some (Except.error ()) := by
  exact ⟨by decide, by decide⟩

/-- Witness for C2 on the demo provider: an unknown collection id raises,
and the known collection k filters down to its direct member a. -/
theorem find_collection_filter_per_candidate_witness :
    (find 5 demoProvider
        { qtype := Option.none, label := Option.none,
          collection := Option.some { id := PyId.str "nope", depth_all := false } }).1
      = Option.some (Except.error ()) ∧
    (find 5 demoProvider
        { qtype := Option.none, label := Option.none,
          collection := Option.some { id := PyId.str "k", depth_all := false } }).1
      = Option.some (Except.ok [mkConcept "a" ["b"]]) := by
  constructor
  · refine (find_collection_filter_per_candidate 5 demoProvider
      { id := PyId.str "nope", depth_all := false }).1 (mkConcept "a" ["b"])
      [mkConcept "b" [], mkCollection "k" ["a"]] rfl ?_
    intro coll hc
    rw [show get_by_id demoProvider.list (PyId.str "nope") = Option.none from by decide] at hc
    exact Option.noConfusion hc
  · have h := (find_collection_filter_per_candidate 5 demoProvider
      { id := PyId.str "k", depth_all := false }).2.1 (mkCollection "k" ["a"])
      (by decide) (by decide) rfl
    rw [h]
    decide

/-- C9: get_children_display resolves the id and returns not-found for an
unknown id; a Concept displays its subordinate_arrays when non-empty and
its narrower otherwise; a Collection always displays its members; the
children are rendered in order via get_by_id. -/
theorem get_children_display_selects (g : List Entity) (i : PyId) :
    (get_by_id g i = Option.none → get_children_display g i = PyRes.notFound) ∧
    (∀ c, get_by_id g i = Option.some c →
      (c.etype = SKType.concept → c.subordinate_arrays ≠ [] →
        (∀ d ∈ c.subordinate_arrays, (get_by_id g d).isSome) →
        get_children_display g i = PyRes.ok (c.subordinate_arrays.filterMap (get_by_id g))) ∧
      (c.etype = SKType.concept → c.subordinate_arrays = [] →
        (∀ d ∈ c.narrower, (get_by_id g d).isSome) →
        get_children_display g i = PyRes.ok (c.narrower.filterMap (get_by_id g))) ∧
      (c.etype = SKType.collection →
        (∀ d ∈ c.members, (get_by_id g d).isSome) →
        get_children_display g i = PyRes.ok (c.members.filterMap (get_by_id g)))) := by
  constructor
  · intro hg
    unfold get_children_display
    rw [hg]
  · intro c hg
    refine ⟨?_, ?_, ?_⟩
    · intro hety hne hres
      unfold get_children_display
      rw [hg]
      dsimp only
      rw [hety]
      dsimp only
      rw [if_neg hne]
      have hall : (c.subordinate_arrays.all fun d => (get_by_id g d).isSome) = true :=
        List.all_eq_true.mpr (fun d hd => hres d hd)
      simp [hall]
    · intro hety hnil hres
      unfold get_children_display
      rw [hg]
      dsimp only
      rw [hety]
      dsimp only
      rw [if_pos hnil]
      have hall : (c.narrower.all fun d => (get_by_id g d).isSome) = true :=
        List.all_eq_true.mpr (fun d hd => hres d hd)
      simp [hall]
    · intro hety hres
      unfold get_children_display
      rw [hg]
      dsimp only
      rw [hety]
      dsimp only
      have hall : (c.members.all fun d => (get_by_id g d).isSome) = true :=
        List.all_eq_true.mpr (fun d hd => hres d hd)
      simp [hall]

/-- Witness for C9 on the display graph: the concept a with a non-empty
subordinate array shows the array, collection k shows its members, and an
unknown id is not-found. -/
theorem get_children_display_selects_witness :
    get_children_display displayGraph (PyId.str "a") = PyRes.ok [mkCollection "k" ["b"]] ∧
    get_children_display displayGraph (PyId.str "k") = PyRes.ok [mkConcept "b" []] ∧
    get_children_display displayGraph (PyId.str "zz") = PyRes.notFound := by
  refine ⟨?_, ?_, ?_⟩
  · have h := ((get_children_display_selects displayGraph (PyId.str "a")).2
      { mkConcept "a" ["b"] with subordinate_arrays := [PyId.str "k"] } (by decide)).1
      (by decide) (by decide) (by decide)
    rw [h]
    decide
  · have h := ((get_children_display_selects displayGraph (PyId.str "k")).2
      (mkCollection "k" ["b"]) (by decide)).2.2 (by decide) (by decide)
    rw [h]
    decide
  · exact (get_children_display_selects displayGraph (PyId.str "zz")).1 (by decide)
